import Mathlib

/-!
Verification of the AgentScheduler scheduling core
(`scheduler/scheduler.go`, together with the data model in `models` and the
CLI flag validation in `main.go`).

Embedding conventions:
* A Go `time.Time` is modelled as an `Int` of seconds since the Unix epoch
  together with a `Location`.  A `time.Location` is modelled as a base UTC
  offset (in seconds) plus a finite list of transitions `(T, d)`: from
  instant `T` on, the offset is permanently increased by `d` seconds.  Real
  tzdata zones change their offset only at instants that are local hour
  boundaries, and the scheduler only ever reads the hour field and hour
  floors of times, so this offset-function model is faithful for the
  operations the code performs (`Hour()`, rounding to the hour with
  `time.Date`, instant comparison and addition of whole hours).
* Go `float64` arithmetic in the decomposer is modelled by exact rational
  (`ℚ`) arithmetic; all concrete inputs used below only produce values that
  are exactly representable as binary64, where Go's float computation and
  the rational computation agree, and the universally quantified theorems
  proved through the decomposer do not depend on rounding of intermediate
  quantities.
* Go `int` is modelled as `Int` (no claim comes near 64-bit overflow).
* `sort.Slice(requests, less-by-priority)` sorts by priority ascending with
  an order of equal elements that Go documents as unspecified ("The sort is
  not guaranteed to be stable").  The embedding fixes a concrete sort by
  priority (a stable insertion sort); every theorem proved below about the
  allocation depends only on the output being sorted by priority and a
  permutation of the input, which Go's sort guarantees.
-/

namespace AgentScheduler

/-- Model of a Go `time.Location`: a base UTC offset in seconds plus a list
of transitions `(T, d)` meaning that from instant `T` on the offset is
increased by `d` seconds. -/
structure Location where
  base : Int
  trans : List (Int × Int)
deriving DecidableEq, Repr

/-- UTC offset (in seconds) that the zone applies at instant `t`. -/
def Location.off (z : Location) (t : Int) : Int :=
  z.trans.foldl (fun o p => if p.1 ≤ t then o + p.2 else o) z.base

/-- The UTC location (`time.UTC`). -/
def utc : Location := ⟨0, []⟩

/-- Wall-clock seconds of instant `t` viewed in zone `z` (seconds since the
epoch of the local calendar). -/
def localWall (z : Location) (t : Int) : Int := t + z.off t

/-- Model of `t.In(z).Hour()`: the 0–23 clock hour of instant `t` viewed in
zone `z`. -/
def localHourLabel (z : Location) (t : Int) : Nat :=
  ((localWall z t % 86400) / 3600).toNat

/-- Model of
`time.Date(t.Year(), t.Month(), t.Day(), t.Hour(), 0, 0, 0, loc)` applied
to a time `t` carried in zone `z`: the instant of the local hour boundary
at or below `t`.  (Zeroing the minute/second fields of a valid local time
subtracts `localWall z t mod 3600` seconds; the offset regime is constant
on that span because zone transitions happen at local hour boundaries.) -/
def floorHour (z : Location) (t : Int) : Int :=
  t - localWall z t % 3600

/-- `models.CallData`.  `StartTime`/`EndTime` are `time.Time` values, each
carrying its own location (`startLoc`, `endLoc`); `location` is the
possibly-nil home zone `Location *time.Location`. -/
structure CallData where
  customerName : String
  averageCallDurationSeconds : Int
  startTime : Int
  startLoc : Location
  endTime : Int
  endLoc : Location
  location : Option Location
  numberOfCalls : Int
  priority : Int
deriving DecidableEq, Repr

/-- `models.CustomerRequirement`. -/
structure CustomerRequirement where
  name : String
  agentsNeeded : Int
  location : Option Location
  priority : Int
deriving DecidableEq, Repr

/-- `models.ImpactedClient`. -/
structure ImpactedClient where
  name : String
  requestedAgents : Int
  allocatedAgents : Int
  unmetAgents : Int
  priority : Int
deriving DecidableEq, Repr

/-- `models.UnmetDemand`. -/
structure UnmetDemand where
  hour : Int
  totalDemand : Int
  allocatedAgents : Int
  unmetAgents : Int
  impactedClients : List ImpactedClient
deriving DecidableEq, Repr

/-- `models.Schedule`. -/
structure Schedule where
  hourlyRequirements : List (List CustomerRequirement)
  unmetDemands : List UnmetDemand
deriving DecidableEq, Repr

/-- One iteration of the hour-by-hour loop in `GenerateSchedule`
(scheduler.go lines 48–92): the step starting at instant `t` either
contributes nothing (`continue` when the clamped overlap with the work
window is not positive) or emits one `(local hour label, requirement)`
pair. -/
def stepEntry (cd : CallData) (utilization : ℚ) (start endAdj : Int)
    (callsPerHour : ℚ) (t : Int) : Option (Nat × CustomerRequirement) :=
  let hourStart := t
  let hourEnd := t + 3600
  let actualStart := if hourStart < start then start else hourStart
  let actualEnd := if endAdj < hourEnd then endAdj else hourEnd
  let hoursUsedInThisSlot : ℚ := ((actualEnd - actualStart : Int) : ℚ) / 3600
  if hoursUsedInThisSlot ≤ 0 then none
  else
    let callsThisHour := callsPerHour * hoursUsedInThisSlot
    let agentsNeeded : Int :=
      ⌈callsThisHour * (cd.averageCallDurationSeconds : ℚ) / 3600⌉
    let agentsAdjusted : Int := ⌈(agentsNeeded : ℚ) * (1 / utilization)⌉
    let lz := cd.location.getD cd.startLoc
    some (localHourLabel lz t,
      ⟨cd.customerName, agentsAdjusted, cd.location, cd.priority⟩)

/-- The per-record part of `GenerateSchedule` (scheduler.go lines 17–92):
overnight normalization, elapsed duration, hour boundaries, and the
hour-stepped emission of requirements, in emission order. -/
def decomposeRecord (cd : CallData) (utilization : ℚ) :
    List (Nat × CustomerRequirement) :=
  let start := cd.startTime
  let endAdj := if cd.endTime < cd.startTime then cd.endTime + 86400
                else cd.endTime
  let durationHours : ℚ := ((endAdj - start : Int) : ℚ) / 3600
  if durationHours ≤ 0 then []
  else
    let callsPerHour : ℚ := (cd.numberOfCalls : ℚ) / durationHours
    let startHB := floorHour cd.startLoc start
    let endHB0 := floorHour cd.endLoc endAdj
    let endHB := if endHB0 < endAdj then endHB0 + 3600 else endHB0
    let numSteps := ((endHB - startHB + 3599) / 3600).toNat
    (List.range numSteps).filterMap fun (i : Nat) =>
      stepEntry cd utilization start endAdj callsPerHour
        (startHB + 3600 * (i : Int))

/-- Append one emitted pair into its hour bucket
(`hourlyRequests[h] = append(hourlyRequests[h], …)`). -/
def addToBuckets (buckets : List (List CustomerRequirement))
    (p : Nat × CustomerRequirement) : List (List CustomerRequirement) :=
  buckets.set p.1 (buckets.getD p.1 [] ++ [p.2])

/-- The aggregation phase of `GenerateSchedule`: 24 initially empty buckets
filled record by record, step by step, in emission order. -/
def aggregate (data : List CallData) (utilization : ℚ) :
    List (List CustomerRequirement) :=
  data.foldl (fun b cd => (decomposeRecord cd utilization).foldl addToBuckets b)
    (List.replicate 24 [])

/-- `totalDemand` accumulation loop of `allocateWithConstraints`
(scheduler.go lines 123–126). -/
def totalDemand (requests : List CustomerRequirement) : Int :=
  requests.foldl (fun s r => s + r.agentsNeeded) 0

/-- The comparison key of the sort in `allocateWithConstraints`:
`requests[i].Priority < requests[j].Priority`, i.e. order by priority
ascending. -/
def priorityLE (a b : CustomerRequirement) : Prop := a.priority ≤ b.priority

instance : DecidableRel priorityLE := fun a b => Int.decLe a.priority b.priority

instance : IsTotal CustomerRequirement priorityLE :=
  ⟨fun a b => Int.le_total a.priority b.priority⟩

instance : IsTrans CustomerRequirement priorityLE :=
  ⟨fun _ _ _ h h2 => Int.le_trans h h2⟩

/-- Model of `sort.Slice(requests, func(i, j) { return requests[i].Priority <
requests[j].Priority })` (scheduler.go lines 133–136): a sort of the list by
priority ascending.  Go's `sort.Slice` leaves the relative order of
equal-priority entries unspecified; the embedding fixes insertion sort as
the concrete permutation (see the header note). -/
def sortByPriority (requests : List CustomerRequirement) :
    List CustomerRequirement :=
  List.insertionSort priorityLE requests

/-- The single-pass allocation loop of `allocateWithConstraints`
(scheduler.go lines 139–178), threaded over the remaining capacity.
Returns the allocated list, the impacted-client list, and the final value
of `remaining` (a local variable of the Go loop, exposed here for the
invariant proofs; `allocateWithConstraints` discards it). -/
def allocLoop (remaining : Int) :
    List CustomerRequirement →
      List CustomerRequirement × List ImpactedClient × Int
  | [] => ([], [], remaining)
  | req :: rest =>
    if remaining ≤ 0 then
      let r := allocLoop remaining rest
      (r.1, ⟨req.name, req.agentsNeeded, 0, req.agentsNeeded, req.priority⟩
              :: r.2.1, r.2.2)
    else if req.agentsNeeded ≤ remaining then
      let r := allocLoop (remaining - req.agentsNeeded) rest
      (req :: r.1, r.2.1, r.2.2)
    else
      let r := allocLoop 0 rest
      (⟨req.name, remaining, req.location, req.priority⟩ :: r.1,
       ⟨req.name, req.agentsNeeded, remaining, req.agentsNeeded - remaining,
         req.priority⟩ :: r.2.1, r.2.2)

/-- `allocateWithConstraints` (scheduler.go lines 117–190). -/
def allocateWithConstraints (requests : List CustomerRequirement)
    (capacity : Int) : List CustomerRequirement × Option UnmetDemand :=
  if requests = [] then ([], none)
  else
    let td := totalDemand requests
    if td ≤ capacity then (requests, none)
    else
      let sorted := sortByPriority requests
      let r := allocLoop capacity sorted
      if r.2.1 = [] then (r.1, none)
      else (r.1, some ⟨0, td, capacity, td - capacity, r.2.1⟩)

/-- `GenerateSchedule` (scheduler.go lines 11–112).  When
`capacityPerHour > 0` the Go code overwrites `HourlyRequirements[h]` with
the allocation of the raw bucket `h` and appends each produced
`UnmetDemand` tagged with its hour, for `h = 0, …, 23` in order; the
per-hour reads and writes are independent, so this is the same as the map /
filterMap below. -/
def generateSchedule (data : List CallData) (utilization : ℚ)
    (capacityPerHour : Int) : Schedule :=
  let hourlyRequests := aggregate data utilization
  if 0 < capacityPerHour then
    { hourlyRequirements := (List.range 24).map fun h =>
        (allocateWithConstraints (hourlyRequests.getD h []) capacityPerHour).1
      unmetDemands := (List.range 24).filterMap fun h =>
        ((allocateWithConstraints (hourlyRequests.getD h [])
            capacityPerHour).2).map fun u => { u with hour := (h : Int) } }
  else
    { hourlyRequirements := hourlyRequests, unmetDemands := [] }

/-- The utilization flag validation of the CLI entry point (`main.go`):
the flow exits with an error when `*utilization < 0 || *utilization > 1`,
and otherwise hands the value to `scheduler.GenerateSchedule` unchanged. -/
def utilizationFlagInvalid (u : ℚ) : Bool := u < 0 || u > 1

/-- Per-entry allocated amounts of the allocation loop, in the order the
loop visits the (sorted) entries: a fully served entry gets its request, a
partially served entry gets the remaining capacity, an unserved entry gets
0. -/
def allocAmounts (remaining : Int) : List CustomerRequirement → List Int
  | [] => []
  | req :: rest =>
    if remaining ≤ 0 then 0 :: allocAmounts remaining rest
    else if req.agentsNeeded ≤ remaining then
      req.agentsNeeded :: allocAmounts (remaining - req.agentsNeeded) rest
    else remaining :: allocAmounts 0 rest

/-- Per-entry emission flags of the allocation loop: `true` when the entry
is appended to the allocated list (fully or partially served), `false` when
it is dropped (the `remaining <= 0` branch). -/
def allocEmits (remaining : Int) : List CustomerRequirement → List Bool
  | [] => []
  | req :: rest =>
    if remaining ≤ 0 then false :: allocEmits remaining rest
    else if req.agentsNeeded ≤ remaining then
      true :: allocEmits (remaining - req.agentsNeeded) rest
    else true :: allocEmits 0 rest

/-- The entry list the allocation amounts refer to: the input list on the
fast path (where every entry is returned unchanged), the sorted list on the
constrained path. -/
def allocationEntries (requests : List CustomerRequirement) (capacity : Int) :
    List CustomerRequirement :=
  if requests = [] then []
  else if totalDemand requests ≤ capacity then requests
  else sortByPriority requests

/-- Allocated amount per entry of `allocationEntries`: on the fast path
every entry receives exactly what it asked for; on the constrained path the
amounts are those of the allocation loop. -/
def allocationAmounts (requests : List CustomerRequirement) (capacity : Int) :
    List Int :=
  if requests = [] then []
  else if totalDemand requests ≤ capacity then
    requests.map (·.agentsNeeded)
  else allocAmounts capacity (sortByPriority requests)

/-- The `ImpactedClient` record built for an entry that receives zero
agents (scheduler.go lines 146–152). -/
def icZero (c : CustomerRequirement) : ImpactedClient :=
  ⟨c.name, c.agentsNeeded, 0, c.agentsNeeded, c.priority⟩

/-- Default requirement used only as the out-of-range value of `List.getD`
in index-based statements. -/
def defaultReq : CustomerRequirement := ⟨"", 0, none, 0⟩

/-! Concrete inputs used by counterexamples and witnesses.  All times are
seconds since the Unix epoch; `36000`–`39600` is 10:00–11:00 UTC on
1970-01-01, and the numeric values (10 calls, 3600 s handle time, whole
hours) make every intermediate Go `float64` value exactly representable, so
the rational model computes the same numbers as the Go code. -/

/-- Two-customer contention scenario of the spec's end-to-end test: both
need 10 agents in hour 10, priorities 1 and 2. -/
def cdHigh : CallData := ⟨"HighPriority", 3600, 36000, utc, 39600, utc, some utc, 10, 1⟩

/-- Companion record to `cdHigh` with priority 2. -/
def cdLow : CallData := ⟨"LowPriority", 3600, 36000, utc, 39600, utc, some utc, 10, 2⟩

/-- A record with a negative total call count. -/
def cdNegCalls : CallData := ⟨"NegCalls", 3600, 36000, utc, 39600, utc, some utc, -10, 1⟩

/-- A record with a zero total call count. -/
def cdZeroCalls : CallData := ⟨"ZeroCalls", 3600, 36000, utc, 43200, utc, some utc, 0, 1⟩

/-- A single-customer record needing 10 agents in hour 10 at utilization 1. -/
def cdUtil : CallData := ⟨"UtilCase", 3600, 36000, utc, 39600, utc, some utc, 10, 1⟩

/-- A zone with a single spring-forward transition at instant `T`: UTC
offset `off1` before `T` and `off1 + 3600` from `T` on, so at `T` the wall
clock jumps forward by one hour. -/
def springZone (T off1 : Int) : Location := ⟨off1, [(T, 3600)]⟩

/-- The local-hour label skipped by the transition of `springZone T off1`
(when the transition happens on a local hour boundary): the label the wall
clock is just reaching as it jumps over it. -/
def skippedHour (T off1 : Int) : Nat :=
  (((T + off1) % 86400) / 3600).toNat

/-- US Eastern time around the 2024-03-10 spring-forward transition
(07:00 UTC): EST (UTC-5) jumping to EDT (UTC-4). -/
def zSpring : Location := springZone 1710054000 (-18000)

/-- The `DST_SpringForward` record of the repository's scheduler test:
2024-03-10 01:00 EST to 04:00 EDT, 6 calls, 3600 s handle time. -/
def cdSpring : CallData :=
  ⟨"SpringForwardTest", 3600, 1710050400, zSpring, 1710057600, zSpring,
    some zSpring, 6, 1⟩

/-! Basic lemmas about the demand sum and the allocation loop. -/

theorem totalDemand_shift (l : List CustomerRequirement) (a : Int) :
    l.foldl (fun s r => s + r.agentsNeeded) a = a + totalDemand l := by
  induction l generalizing a with
  | nil => simp [totalDemand]
  | cons x xs ih =>
    simp only [totalDemand, List.foldl_cons]
    rw [ih, ih]
    omega

theorem totalDemand_cons (x : CustomerRequirement)
    (l : List CustomerRequirement) :
    totalDemand (x :: l) = x.agentsNeeded + totalDemand l := by
  have h : totalDemand (x :: l) =
      l.foldl (fun s r => s + r.agentsNeeded) (0 + x.agentsNeeded) := rfl
  rw [h, totalDemand_shift]
  omega

theorem totalDemand_eq_sum (l : List CustomerRequirement) :
    totalDemand l = (l.map (·.agentsNeeded)).sum := by
  induction l with
  | nil => simp [totalDemand]
  | cons x xs ih => rw [totalDemand_cons, List.map_cons, List.sum_cons, ih]

theorem totalDemand_sort (l : List CustomerRequirement) :
    totalDemand (sortByPriority l) = totalDemand l := by
  rw [totalDemand_eq_sum, totalDemand_eq_sum]
  exact ((List.perm_insertionSort priorityLE l).map _).sum_eq

theorem sortByPriority_sorted (l : List CustomerRequirement) :
    (sortByPriority l).Pairwise priorityLE :=
  List.sorted_insertionSort priorityLE l

theorem allocLoop_nonpos (r : Int) (hr : r ≤ 0) (l : List CustomerRequirement) :
    allocLoop r l = ([], l.map icZero, r) := by
  induction l with
  | nil => simp [allocLoop]
  | cons x xs ih => simp [allocLoop, hr, ih, icZero]

theorem allocLoop_sum (l : List CustomerRequirement) :
    ∀ r : Int, 0 ≤ r →
      totalDemand (allocLoop r l).1 = r - (allocLoop r l).2.2 ∧
        0 ≤ (allocLoop r l).2.2 := by
  induction l with
  | nil =>
    intro r hr
    simp [allocLoop, totalDemand, hr]
  | cons x xs ih =>
    intro r hr
    by_cases h1 : r ≤ 0
    · rw [allocLoop_nonpos r h1]
      simp only [totalDemand, List.foldl_nil]
      omega
    · by_cases h2 : x.agentsNeeded ≤ r
      · have h3 := ih (r - x.agentsNeeded) (by omega)
        simp only [allocLoop, if_neg h1, if_pos h2, totalDemand_cons]
        omega
      · have h3 := ih 0 le_rfl
        simp only [allocLoop, if_neg h1, if_neg h2, totalDemand_cons]
        omega

theorem allocLoop_ic_nil (l : List CustomerRequirement) :
    ∀ r : Int, (allocLoop r l).2.1 = [] → (allocLoop r l).1 = l := by
  induction l with
  | nil => intro r _; simp [allocLoop]
  | cons x xs ih =>
    intro r hic
    by_cases h1 : r ≤ 0
    · simp [allocLoop, h1] at hic
    · by_cases h2 : x.agentsNeeded ≤ r
      · simp only [allocLoop, if_neg h1, if_pos h2] at hic ⊢
        rw [ih _ hic]
      · simp [allocLoop, h1, h2] at hic

theorem allocLoop_rf_zero (l : List CustomerRequirement) :
    ∀ r : Int, 0 ≤ r → (allocLoop r l).2.1 ≠ [] → (allocLoop r l).2.2 = 0 := by
  induction l with
  | nil => intro r _ hic; simp [allocLoop] at hic
  | cons x xs ih =>
    intro r hr hic
    by_cases h1 : r ≤ 0
    · have : r = 0 := by omega
      subst this
      rw [allocLoop_nonpos 0 le_rfl]
    · by_cases h2 : x.agentsNeeded ≤ r
      · simp only [allocLoop, if_neg h1, if_pos h2] at hic ⊢
        exact ih _ (by omega) hic
      · simp only [allocLoop, if_neg h1, if_neg h2]
        rw [allocLoop_nonpos 0 le_rfl]

/-- C1, as frozen, fails for a negative capacity: with one request of 1
agent and capacity `-1` the constrained path allocates nothing and records
`unmetAgents = totalDemand - capacity = 2`, so the conservation sum is `2`,
not the total unconstrained demand `1`. -/
theorem C1_counterexample :
    ¬ (totalDemand (allocateWithConstraints [⟨"A", 1, none, 1⟩] (-1)).1 +
        ((allocateWithConstraints [⟨"A", 1, none, 1⟩] (-1)).2.elim 0
          UnmetDemand.unmetAgents) =
      totalDemand [⟨"A", 1, none, 1⟩]) := by decide

/-- C1 (amended to non-negative capacities): for every demand list and
every capacity `≥ 0`, the sum of `agentsNeeded` over the allocated list
plus the `unmetAgents` of the produced `UnmetDemand` (0 when none is
produced) equals the sum of `agentsNeeded` over the input list. -/
theorem C1_conservation (requests : List CustomerRequirement)
    (capacity : Int) (hcap : 0 ≤ capacity) :
    totalDemand (allocateWithConstraints requests capacity).1 +
      ((allocateWithConstraints requests capacity).2.elim 0
        UnmetDemand.unmetAgents) =
    totalDemand requests := by
  by_cases h0 : requests = []
  · simp [h0, allocateWithConstraints, totalDemand]
  · by_cases h1 : totalDemand requests ≤ capacity
    · simp [allocateWithConstraints, h0, h1]
    · by_cases h2 : (allocLoop capacity (sortByPriority requests)).2.1 = []
      · simp only [allocateWithConstraints, if_neg h0, if_neg h1, if_pos h2,
          Option.elim]
        rw [allocLoop_ic_nil _ _ h2, totalDemand_sort]
        omega
      · have hs := allocLoop_sum (sortByPriority requests) capacity hcap
        have hz := allocLoop_rf_zero (sortByPriority requests) capacity hcap h2
        simp only [allocateWithConstraints, if_neg h0, if_neg h1, if_neg h2,
          Option.elim]
        omega

/-- Witness for `C1_conservation` at a concrete contended input. -/
theorem C1_conservation_witness :
    (0 : Int) ≤ 15 ∧
      totalDemand
          (allocateWithConstraints [⟨"A", 10, none, 1⟩, ⟨"B", 10, none, 2⟩]
            15).1 +
        ((allocateWithConstraints [⟨"A", 10, none, 1⟩, ⟨"B", 10, none, 2⟩]
            15).2.elim 0 UnmetDemand.unmetAgents) =
      totalDemand [⟨"A", 10, none, 1⟩, ⟨"B", 10, none, 2⟩] :=
  ⟨by decide, C1_conservation _ 15 (by decide)⟩

/-- C3: when the total demand of a non-empty list fits within the capacity,
`allocateWithConstraints` returns the input list itself (hence the same
names, agent counts, priorities and order) and no `UnmetDemand`; and with
the unlimited sentinel `capacityPerHour = 0` the allocator is not invoked:
`GenerateSchedule` returns the raw aggregated buckets and an empty
unmet-demand list. -/
theorem C3_fast_path :
    (∀ (requests : List CustomerRequirement) (capacity : Int),
        requests ≠ [] → totalDemand requests ≤ capacity →
          allocateWithConstraints requests capacity = (requests, none)) ∧
    ∀ (data : List CallData) (u : ℚ),
        (generateSchedule data u 0).hourlyRequirements = aggregate data u ∧
        (generateSchedule data u 0).unmetDemands = [] := by
  constructor
  · intro requests capacity hne hle
    simp [allocateWithConstraints, hne, hle]
  · intro data u
    constructor <;> simp [generateSchedule]

/-- Witness for `C3_fast_path` at concrete inputs on both branches. -/
theorem C3_fast_path_witness :
    allocateWithConstraints [⟨"A", 3, none, 1⟩] 5 = ([⟨"A", 3, none, 1⟩], none) ∧
      (generateSchedule [cdUtil] 1 0).unmetDemands = [] :=
  ⟨C3_fast_path.1 _ 5 (by decide) (by decide), (C3_fast_path.2 [cdUtil] 1).2⟩

/-- C10: a negative `capacityPerHour` takes the same branch of
`GenerateSchedule` as the sentinel `0` (`capacityPerHour > 0` fails), so
the whole returned `Schedule` coincides with the unconstrained one and no
`UnmetDemand` record is produced. -/
theorem C10_negative_capacity (data : List CallData) (u : ℚ)
    (capacityPerHour : Int) (hcap : capacityPerHour < 0) :
    generateSchedule data u capacityPerHour = generateSchedule data u 0 ∧
      (generateSchedule data u capacityPerHour).unmetDemands = [] := by
  have h1 : ¬ (0 : Int) < capacityPerHour := by omega
  constructor <;> simp [generateSchedule, h1]

/-- Witness for `C10_negative_capacity` at capacity `-1`. -/
theorem C10_negative_capacity_witness :
    generateSchedule [cdUtil] 1 (-1) = generateSchedule [cdUtil] 1 0 ∧
      (generateSchedule [cdUtil] 1 (-1)).unmetDemands = [] :=
  C10_negative_capacity [cdUtil] 1 (-1) (by decide)

/-! Lemmas for the structural invariants of the assembled schedule. -/

theorem foldl_addToBuckets_length (entries : List (Nat × CustomerRequirement)) :
    ∀ b : List (List CustomerRequirement),
      (entries.foldl addToBuckets b).length = b.length := by
  induction entries with
  | nil => intro b; rfl
  | cons p es ih =>
    intro b
    rw [List.foldl_cons, ih]
    simp [addToBuckets]

theorem aggregate_length (data : List CallData) (u : ℚ) :
    (aggregate data u).length = 24 := by
  have h : ∀ b : List (List CustomerRequirement),
      (data.foldl
          (fun b cd => (decomposeRecord cd u).foldl addToBuckets b) b).length =
        b.length := by
    induction data with
    | nil => intro b; rfl
    | cons cd ds ih =>
      intro b
      rw [List.foldl_cons, ih, foldl_addToBuckets_length]
  unfold aggregate
  rw [h]
  simp

theorem allocLoop_ic_invariant (l : List CustomerRequirement) :
    ∀ (r : Int) (c : ImpactedClient), c ∈ (allocLoop r l).2.1 →
      c.unmetAgents = c.requestedAgents - c.allocatedAgents := by
  induction l with
  | nil => intro r c hc; simp [allocLoop] at hc
  | cons x xs ih =>
    intro r c hc
    by_cases h1 : r ≤ 0
    · simp only [allocLoop, if_pos h1] at hc
      rcases List.mem_cons.1 hc with h | h
      · subst h; simp
      · exact ih r c h
    · by_cases h2 : x.agentsNeeded ≤ r
      · simp only [allocLoop, if_neg h1, if_pos h2] at hc
        exact ih _ c hc
      · simp only [allocLoop, if_neg h1, if_neg h2] at hc
        rcases List.mem_cons.1 hc with h | h
        · subst h; simp
        · exact ih 0 c h

theorem allocate_snd_invariant (requests : List CustomerRequirement)
    (capacity : Int) (u : UnmetDemand)
    (h : (allocateWithConstraints requests capacity).2 = some u) :
    u.unmetAgents = u.totalDemand - u.allocatedAgents ∧
      ∀ c ∈ u.impactedClients,
        c.unmetAgents = c.requestedAgents - c.allocatedAgents := by
  by_cases h0 : requests = []
  · simp [allocateWithConstraints, h0] at h
  · by_cases h1 : totalDemand requests ≤ capacity
    · simp [allocateWithConstraints, h0, h1] at h
    · by_cases h2 : (allocLoop capacity (sortByPriority requests)).2.1 = []
      · simp [allocateWithConstraints, h0, h1, h2] at h
      · simp only [allocateWithConstraints, if_neg h0, if_neg h1,
          if_neg h2] at h
        have hu := Option.some.inj h
        subst hu
        refine ⟨rfl, ?_⟩
        intro c hc
        exact allocLoop_ic_invariant _ _ c hc

/-- C4: every schedule returned by `GenerateSchedule` has all 24 hour
buckets present, every `UnmetDemand` satisfies
`unmetAgents = totalDemand - allocatedAgents` exactly, and every
`ImpactedClient` satisfies `unmetAgents = requestedAgents -
allocatedAgents` exactly. -/
theorem C4_schedule_invariants (data : List CallData) (u : ℚ)
    (capacityPerHour : Int) :
    (generateSchedule data u capacityPerHour).hourlyRequirements.length = 24 ∧
      ∀ ud ∈ (generateSchedule data u capacityPerHour).unmetDemands,
        ud.unmetAgents = ud.totalDemand - ud.allocatedAgents ∧
          ∀ c ∈ ud.impactedClients,
            c.unmetAgents = c.requestedAgents - c.allocatedAgents := by
  by_cases hc : (0 : Int) < capacityPerHour
  · constructor
    · simp [generateSchedule, hc]
    · intro ud hud
      simp only [generateSchedule, if_pos hc, List.mem_filterMap] at hud
      obtain ⟨h, _, heq⟩ := hud
      rw [Option.map_eq_some'] at heq
      obtain ⟨u', hu', hud2⟩ := heq
      subst hud2
      have hinv := allocate_snd_invariant _ _ _ hu'
      exact ⟨hinv.1, hinv.2⟩
  · constructor
    · simp [generateSchedule, hc, aggregate_length]
    · intro ud hud
      simp [generateSchedule, hc] at hud

/-- Witness for `C4_schedule_invariants`: the unmet-demand record the
schedule of the contention scenario actually produces satisfies both exact
identities. -/
theorem C4_schedule_invariants_witness :
    (⟨10, 20, 15, 5, [⟨"LowPriority", 10, 5, 5, 2⟩]⟩ :
          UnmetDemand).unmetAgents =
        (⟨10, 20, 15, 5, [⟨"LowPriority", 10, 5, 5, 2⟩]⟩ :
            UnmetDemand).totalDemand -
          (⟨10, 20, 15, 5, [⟨"LowPriority", 10, 5, 5, 2⟩]⟩ :
              UnmetDemand).allocatedAgents ∧
      ∀ c ∈ (⟨10, 20, 15, 5, [⟨"LowPriority", 10, 5, 5, 2⟩]⟩ :
          UnmetDemand).impactedClients,
        c.unmetAgents = c.requestedAgents - c.allocatedAgents :=
  (C4_schedule_invariants [cdHigh, cdLow] 1 15).2 _ (by with_unfolding_all decide)

/-- C9: the end-to-end contention scenario.  Two records in hour 10, both
needing 10 agents, priorities 1 and 2, capacity 15: the priority-1
customer is allocated 10, the priority-2 customer 5, and exactly one
`UnmetDemand` is produced, for hour 10, with total 20, allocated 15, unmet
5, and a single impacted client (priority 2, requested 10, allocated 5,
unmet 5). -/
theorem C9_end_to_end :
    (generateSchedule [cdHigh, cdLow] 1 15).hourlyRequirements.getD 10 [] =
        [⟨"HighPriority", 10, some utc, 1⟩, ⟨"LowPriority", 5, some utc, 2⟩] ∧
      (generateSchedule [cdHigh, cdLow] 1 15).unmetDemands =
        [⟨10, 20, 15, 5, [⟨"LowPriority", 10, 5, 5, 2⟩]⟩] := by with_unfolding_all decide

/-- C6 fails on the code: for utilization 2, which lies outside `(0, 1]`,
`GenerateSchedule` does not signal any invalid-argument condition — it
returns a schedule whose hour-10 bucket was computed with that utilization
(5 agents = `ceil(10 * 1/2)`, against 10 agents at utilization 1). -/
theorem C6_counterexample :
    (generateSchedule [cdUtil] 2 0).hourlyRequirements.getD 10 [] =
        [⟨"UtilCase", 5, some utc, 1⟩] ∧
      (generateSchedule [cdUtil] 1 0).hourlyRequirements.getD 10 [] =
        [⟨"UtilCase", 10, some utc, 1⟩] := by with_unfolding_all decide

/-- C6 (amended): the scheduling core performs no utilization validation
and returns a schedule computed with whatever utilization it is given
(here `-1`, yielding `ceil(10 * (1 / (-1))) = -10` agents); range checking
happens only upstream in the CLI entry point, whose check rejects
utilization `< 0` or `> 1` but admits `0`. -/
theorem C6_amended :
    utilizationFlagInvalid 2 = true ∧
      utilizationFlagInvalid (-1) = true ∧
      utilizationFlagInvalid 0 = false ∧
      (generateSchedule [cdUtil] (-1) 0).hourlyRequirements.getD 10 [] =
        [⟨"UtilCase", -10, some utc, 1⟩] := by with_unfolding_all decide

/-- C7, as frozen, fails for a negative call count: a record with `-10`
calls over one hour emits a step with `agentsNeeded = -10`, not `0`. -/
theorem C7_counterexample :
    ¬ ∀ p ∈ decomposeRecord cdNegCalls 1, p.2.agentsNeeded = 0 := by with_unfolding_all decide

/-! Sign lemmas for the per-step agent computation. -/

theorem agents_nonpos (calls dur slot aht u : ℚ) (hcalls : calls ≤ 0)
    (hdur : 0 < dur) (hslot : 0 < slot) (haht : 0 ≤ aht) (hu : 0 < u) :
    ⌈((⌈calls / dur * slot * aht / 3600⌉ : Int) : ℚ) * (1 / u)⌉ ≤ 0 := by
  have hcph : calls / dur ≤ 0 :=
    div_nonpos_iff.mpr (Or.inr ⟨hcalls, le_of_lt hdur⟩)
  have hcth : calls / dur * slot ≤ 0 :=
    mul_nonpos_iff.mpr (Or.inr ⟨hcph, le_of_lt hslot⟩)
  have hx : calls / dur * slot * aht / 3600 ≤ 0 :=
    div_nonpos_iff.mpr
      (Or.inr ⟨mul_nonpos_iff.mpr (Or.inr ⟨hcth, haht⟩), by norm_num⟩)
  have hc1 : (⌈calls / dur * slot * aht / 3600⌉ : Int) ≤ 0 :=
    Int.ceil_le.mpr (by exact_mod_cast hx)
  have hinv : (0 : ℚ) < 1 / u := by positivity
  have hy : ((⌈calls / dur * slot * aht / 3600⌉ : Int) : ℚ) * (1 / u) ≤ 0 :=
    mul_nonpos_iff.mpr (Or.inr ⟨by exact_mod_cast hc1, le_of_lt hinv⟩)
  exact Int.ceil_le.mpr (by exact_mod_cast hy)

theorem agents_zero (dur slot aht u : ℚ) :
    ⌈((⌈(0 : ℚ) / dur * slot * aht / 3600⌉ : Int) : ℚ) * (1 / u)⌉ = 0 := by
  simp

/-- C7 (amended): a record with a zero total call count contributes
`agentsNeeded = 0` for every step it emits (no error is raised); a record
with a negative call count contributes non-positive (in general negative)
`agentsNeeded`, not `0`.  The handle time is non-negative and the
utilization positive as the data-model preconditions state. -/
theorem C7_nonpositive_calls (cd : CallData) (u : ℚ) (hu : 0 < u)
    (haht : 0 ≤ cd.averageCallDurationSeconds)
    (hcalls : cd.numberOfCalls ≤ 0) :
    ∀ p ∈ decomposeRecord cd u,
      p.2.agentsNeeded ≤ 0 ∧ (cd.numberOfCalls = 0 → p.2.agentsNeeded = 0) := by
  intro p hp
  simp only [decomposeRecord] at hp
  generalize hE : (if cd.endTime < cd.startTime then cd.endTime + 86400
      else cd.endTime) = ea at hp
  split at hp
  · simp at hp
  · rename_i hdur
    rw [List.mem_filterMap] at hp
    obtain ⟨i, _, hstep⟩ := hp
    generalize hT : floorHour cd.startLoc cd.startTime + 3600 * (i : Int) = t
      at hstep
    simp only [stepEntry] at hstep
    generalize hA : (if t < cd.startTime then cd.startTime else t) = aS
      at hstep
    generalize hB : (if ea < t + 3600 then ea else t + 3600) = aE at hstep
    split at hstep
    · simp at hstep
    · rename_i hslot
      have hps := Option.some.inj hstep
      subst hps
      have hdur2 := not_le.mp hdur
      have hslot2 := not_le.mp hslot
      constructor
      · exact agents_nonpos _ _ _ _ _ (by exact_mod_cast hcalls) hdur2 hslot2
          (by exact_mod_cast haht) hu
      · intro h0
        rw [h0]
        simp

/-- Witness for `C7_nonpositive_calls` on a zero-call record. -/
theorem C7_nonpositive_calls_witness :
    (0 : ℚ) < 1 ∧
      ∀ p ∈ decomposeRecord cdZeroCalls 1,
        p.2.agentsNeeded ≤ 0 ∧
          (cdZeroCalls.numberOfCalls = 0 → p.2.agentsNeeded = 0) :=
  ⟨by norm_num,
    C7_nonpositive_calls cdZeroCalls 1 (by norm_num) (by decide) (by decide)⟩

/-! Lemmas for priority monotonicity: once some sorted entry receives less
than it requested, the remaining capacity is exhausted and every later
entry is dropped with an allocation of zero. -/

theorem getD_replicate {α : Type} (n j : Nat) (hj : j < n) (a d : α) :
    (List.replicate n a).getD j d = a := by
  rw [List.getD_eq_getElem _ _ (by simpa using hj)]
  exact List.getElem_replicate a _

theorem allocAmounts_length (l : List CustomerRequirement) :
    ∀ r : Int, (allocAmounts r l).length = l.length := by
  induction l with
  | nil => intro r; rfl
  | cons x xs ih =>
    intro r
    by_cases h1 : r ≤ 0
    · simp [allocAmounts, h1, ih]
    · by_cases h2 : x.agentsNeeded ≤ r
      · simp [allocAmounts, h1, h2, ih]
      · simp [allocAmounts, h1, h2, ih]

theorem allocAmounts_nonpos (r : Int) (hr : r ≤ 0)
    (l : List CustomerRequirement) :
    allocAmounts r l = List.replicate l.length 0 := by
  induction l with
  | nil => rfl
  | cons x xs ih => simp [allocAmounts, hr, ih, List.replicate_succ]

theorem allocEmits_nonpos (r : Int) (hr : r ≤ 0)
    (l : List CustomerRequirement) :
    allocEmits r l = List.replicate l.length false := by
  induction l with
  | nil => rfl
  | cons x xs ih => simp [allocEmits, hr, ih, List.replicate_succ]

theorem alloc_after_deficit (l : List CustomerRequirement) :
    ∀ (r : Int) (i j : Nat), i < j → j < l.length →
      (allocAmounts r l).getD i 0 < (l.getD i defaultReq).agentsNeeded →
      (allocAmounts r l).getD j 0 = 0 ∧
        (allocEmits r l).getD j true = false ∧
        icZero (l.getD j defaultReq) ∈ (allocLoop r l).2.1 := by
  induction l with
  | nil => intro r i j hij hj hlt; simp at hj
  | cons x xs ih =>
    intro r i j hij hj hlt
    obtain ⟨j', rfl⟩ : ∃ j', j = j' + 1 := ⟨j - 1, by omega⟩
    have hj' : j' < xs.length := by simpa using hj
    by_cases h1 : r ≤ 0
    · refine ⟨?_, ?_, ?_⟩
      · rw [allocAmounts_nonpos r h1]
        exact getD_replicate _ _ (by simpa using hj) _ _
      · rw [allocEmits_nonpos r h1]
        exact getD_replicate _ _ (by simpa using hj) _ _
      · rw [allocLoop_nonpos r h1, List.getD_cons_succ]
        refine List.mem_map_of_mem icZero (List.mem_cons_of_mem x ?_)
        rw [List.getD_eq_getElem _ _ hj']
        exact List.getElem_mem hj'
    · cases i with
      | zero =>
        by_cases h2 : x.agentsNeeded ≤ r
        · exfalso
          simp only [allocAmounts, if_neg h1, if_pos h2, List.getD_cons_zero]
            at hlt
          exact absurd hlt (lt_irrefl _)
        · refine ⟨?_, ?_, ?_⟩
          · simp only [allocAmounts, if_neg h1, if_neg h2,
              List.getD_cons_succ, allocAmounts_nonpos 0 le_rfl]
            exact getD_replicate _ _ hj' _ _
          · simp only [allocEmits, if_neg h1, if_neg h2,
              List.getD_cons_succ, allocEmits_nonpos 0 le_rfl]
            exact getD_replicate _ _ hj' _ _
          · simp only [allocLoop, if_neg h1, if_neg h2, List.getD_cons_succ,
              allocLoop_nonpos 0 le_rfl]
            refine List.mem_cons_of_mem _ (List.mem_map_of_mem icZero ?_)
            rw [List.getD_eq_getElem _ _ hj']
            exact List.getElem_mem hj'
      | succ i' =>
        by_cases h2 : x.agentsNeeded ≤ r
        · have hmain := ih (r - x.agentsNeeded) i' j' (by omega) hj'
            (by simpa only [allocAmounts, if_neg h1, if_pos h2,
              List.getD_cons_succ] using hlt)
          refine ⟨?_, ?_, ?_⟩
          · simpa only [allocAmounts, if_neg h1, if_pos h2,
              List.getD_cons_succ] using hmain.1
          · simpa only [allocEmits, if_neg h1, if_pos h2,
              List.getD_cons_succ] using hmain.2.1
          · simpa only [allocLoop, if_neg h1, if_pos h2,
              List.getD_cons_succ] using hmain.2.2
        · have hmain := ih 0 i' j' (by omega) hj'
            (by simpa only [allocAmounts, if_neg h1, if_neg h2,
              List.getD_cons_succ] using hlt)
          refine ⟨?_, ?_, ?_⟩
          · simpa only [allocAmounts, if_neg h1, if_neg h2,
              List.getD_cons_succ] using hmain.1
          · simpa only [allocEmits, if_neg h1, if_neg h2,
              List.getD_cons_succ] using hmain.2.1
          · simp only [allocLoop, if_neg h1, if_neg h2, List.getD_cons_succ]
            exact List.mem_cons_of_mem _ hmain.2.2

/-- C2: in the allocation of `allocateWithConstraints`, for any two entries
with priorities `p1 < p2`, if the `p1` entry is allocated strictly less
than it requested, then the `p2` entry is allocated 0 agents: it is not
emitted into the allocated list and it is recorded as an `ImpactedClient`
with `allocatedAgents = 0` in the produced `UnmetDemand`. -/
theorem C2_priority_monotonicity (requests : List CustomerRequirement)
    (capacity : Int) (i j : Nat)
    (hi : i < (allocationEntries requests capacity).length)
    (hj : j < (allocationEntries requests capacity).length)
    (hp : ((allocationEntries requests capacity).getD i defaultReq).priority <
      ((allocationEntries requests capacity).getD j defaultReq).priority)
    (hlt : (allocationAmounts requests capacity).getD i 0 <
      ((allocationEntries requests capacity).getD i defaultReq).agentsNeeded) :
    (allocationAmounts requests capacity).getD j 0 = 0 ∧
      (allocEmits capacity (sortByPriority requests)).getD j true = false ∧
      ∃ u, (allocateWithConstraints requests capacity).2 = some u ∧
        icZero ((allocationEntries requests capacity).getD j defaultReq) ∈
          u.impactedClients := by
  by_cases h0 : requests = []
  · subst h0
    simp [allocationEntries] at hi
  · by_cases h1 : totalDemand requests ≤ capacity
    · exfalso
      simp only [allocationEntries, allocationAmounts, if_neg h0, if_pos h1]
        at hi hlt
      rw [List.getD_eq_getElem _ _ (by simpa using hi),
        List.getD_eq_getElem _ _ hi, List.getElem_map] at hlt
      exact absurd hlt (lt_irrefl _)
    · simp only [allocationEntries, allocationAmounts, if_neg h0, if_neg h1]
        at hi hj hp hlt ⊢
      have hpi := hp
      rw [List.getD_eq_getElem _ _ hi, List.getD_eq_getElem _ _ hj] at hpi
      have hij : i < j := by
        rcases Nat.lt_trichotomy i j with h | h | h
        · exact h
        · exfalso
          subst h
          exact lt_irrefl _ hpi
        · exfalso
          have hle := List.pairwise_iff_getElem.mp
            (sortByPriority_sorted requests) j i hj hi h
          exact absurd hpi (not_lt.mpr hle)
      have hmain := alloc_after_deficit (sortByPriority requests) capacity
        i j hij hj hlt
      refine ⟨hmain.1, hmain.2.1, ?_⟩
      have hic : (allocLoop capacity (sortByPriority requests)).2.1 ≠ [] := by
        intro hnil
        rw [hnil] at hmain
        exact absurd hmain.2.2 (List.not_mem_nil _)
      refine ⟨⟨0, totalDemand requests, capacity,
        totalDemand requests - capacity,
        (allocLoop capacity (sortByPriority requests)).2.1⟩, ?_, ?_⟩
      · simp only [allocateWithConstraints, if_neg h0, if_neg h1, if_neg hic]
      · exact hmain.2.2

/-- Witness for `C2_priority_monotonicity`: two entries with priorities 1
and 2 both asking 10 agents under capacity 5 — the first is cut to 5, the
second gets 0 and is recorded impacted with allocation 0. -/
theorem C2_priority_monotonicity_witness :
    (allocationAmounts [⟨"A", 10, none, 1⟩, ⟨"B", 10, none, 2⟩] 5).getD 1 0
        = 0 ∧
      (allocEmits 5
          (sortByPriority [⟨"A", 10, none, 1⟩, ⟨"B", 10, none, 2⟩])).getD 1
          true = false ∧
      ∃ u, (allocateWithConstraints [⟨"A", 10, none, 1⟩, ⟨"B", 10, none, 2⟩]
            5).2 = some u ∧
        icZero ((allocationEntries [⟨"A", 10, none, 1⟩, ⟨"B", 10, none, 2⟩]
            5).getD 1 defaultReq) ∈ u.impactedClients :=
  C2_priority_monotonicity [⟨"A", 10, none, 1⟩, ⟨"B", 10, none, 2⟩] 5 0 1
    (by decide) (by decide) (by decide) (by decide)

/-! Lemmas for the DST spring-forward claim. -/

theorem springZone_off_lt (T off1 t : Int) (h : t < T) :
    (springZone T off1).off t = off1 := by
  simp only [springZone, Location.off, List.foldl_cons, List.foldl_nil]
  rw [if_neg (not_le.mpr h)]

theorem springZone_off_ge (T off1 t : Int) (h : T ≤ t) :
    (springZone T off1).off t = off1 + 3600 := by
  simp only [springZone, Location.off, List.foldl_cons, List.foldl_nil]
  rw [if_pos h]

theorem skippedHour_lt_24 (T off1 : Int) : skippedHour T off1 < 24 := by
  unfold skippedHour
  omega

theorem foldl_addToBuckets_getD (entries : List (Nat × CustomerRequirement)) :
    ∀ (b : List (List CustomerRequirement)) (h : Nat), h < b.length →
      (entries.foldl addToBuckets b).getD h [] =
        b.getD h [] ++ (entries.filter (fun q => q.1 = h)).map (·.2) := by
  induction entries with
  | nil => intro b h hh; simp
  | cons p es ih =>
    intro b h hh
    rw [List.foldl_cons, ih (addToBuckets b p) h (by simpa [addToBuckets] using hh)]
    by_cases hph : p.1 = h
    · rw [List.filter_cons_of_pos (by simpa using hph)]
      have hset : (addToBuckets b p).getD h [] = b.getD h [] ++ [p.2] := by
        unfold addToBuckets
        subst hph
        rw [List.getD_eq_getElem _ _ (by simpa using hh)]
        rw [List.getElem_set_self]
      rw [hset]
      simp
    · rw [List.filter_cons_of_neg (by simpa using hph)]
      have hset : (addToBuckets b p).getD h [] = b.getD h [] := by
        unfold addToBuckets
        rw [List.getD_eq_getElem _ _ (by simpa using hh),
          List.getD_eq_getElem _ _ hh]
        exact List.getElem_set_ne hph _
      rw [hset]

/-- C8: a record whose window spans the spring-forward transition of its
home zone (all of it within the day around the transition) emits no entry
labelled with the skipped wall-clock hour, and the bucket for that label in
the generated schedule stays empty.  The transition instant `T` lies on a
local hour boundary (`(T + off1) mod 3600 = 0`), the window strictly spans
it (`startTime < T < endTime`), and the window stays within 22 hours of the
transition, so that no other day's occurrence of the label is covered. -/
theorem C8_spring_forward_skip (T off1 : Int) (cd : CallData) (u : ℚ)
    (hzs : cd.startLoc = springZone T off1)
    (hze : cd.endLoc = springZone T off1)
    (hzh : cd.location = some (springZone T off1))
    (hT : (T + off1) % 3600 = 0)
    (h1 : cd.startTime < T) (h2 : T < cd.endTime)
    (h3 : T - 79200 ≤ cd.startTime) (h4 : cd.endTime ≤ T + 79200) :
    (∀ p ∈ decomposeRecord cd u, p.1 ≠ skippedHour T off1) ∧
      (generateSchedule [cd] u 0).hourlyRequirements.getD
        (skippedHour T off1) [] = [] := by
  have hov : ¬ (cd.endTime < cd.startTime) := by omega
  have hfS : floorHour cd.startLoc cd.startTime =
      cd.startTime - (cd.startTime + off1) % 3600 := by
    rw [hzs]
    unfold floorHour localWall
    rw [springZone_off_lt T off1 _ h1]
  have hfE : floorHour cd.endLoc cd.endTime =
      cd.endTime - (cd.endTime + (off1 + 3600)) % 3600 := by
    rw [hze]
    unfold floorHour localWall
    rw [springZone_off_ge T off1 _ (le_of_lt h2)]
  have hpart1 : ∀ p ∈ decomposeRecord cd u, p.1 ≠ skippedHour T off1 := by
    intro p hp
    simp only [decomposeRecord] at hp
    rw [if_neg hov] at hp
    split at hp
    · simp at hp
    · rw [List.mem_filterMap] at hp
      obtain ⟨i, hirange, hstep⟩ := hp
      rw [List.mem_range] at hirange
      rw [hfS, hfE] at hirange
      rw [hfS] at hstep
      generalize hT2 : cd.startTime - (cd.startTime + off1) % 3600 +
          3600 * (i : Int) = t at hstep
      simp only [stepEntry] at hstep
      generalize (if t < cd.startTime then cd.startTime else t) = aS at hstep
      generalize (if cd.endTime < t + 3600 then cd.endTime else t + 3600) = aE
        at hstep
      split at hstep
      · simp at hstep
      · have hps := Option.some.inj hstep
        subst hps
        simp only [hzh, Option.getD_some]
        unfold localHourLabel localWall skippedHour
        rcases le_or_lt T t with hTt | hTt
        · rw [springZone_off_ge T off1 _ hTt]
          by_cases hEB : cd.endTime -
              (cd.endTime + (off1 + 3600)) % 3600 < cd.endTime
          · rw [if_pos hEB] at hirange
            omega
          · rw [if_neg hEB] at hirange
            omega
        · rw [springZone_off_lt T off1 _ hTt]
          by_cases hEB : cd.endTime -
              (cd.endTime + (off1 + 3600)) % 3600 < cd.endTime
          · rw [if_pos hEB] at hirange
            omega
          · rw [if_neg hEB] at hirange
            omega
  refine ⟨hpart1, ?_⟩
  have hlt24 := skippedHour_lt_24 T off1
  have hsched : (generateSchedule [cd] u 0).hourlyRequirements =
      (decomposeRecord cd u).foldl addToBuckets (List.replicate 24 []) := by
    simp only [generateSchedule]
    rw [if_neg (lt_irrefl (0 : Int))]
    rfl
  rw [hsched]
  rw [foldl_addToBuckets_getD _ _ _ (by simpa using hlt24)]
  rw [getD_replicate 24 _ hlt24]
  have hfil : (decomposeRecord cd u).filter
      (fun q => q.1 = skippedHour T off1) = [] := by
    rw [List.filter_eq_nil_iff]
    intro a ha
    simpa using hpart1 a ha
  rw [hfil]
  simp

/-- Witness for `C8_spring_forward_skip`: the repository's own
spring-forward test record (2024-03-10 01:00–04:00 America/New_York).  Its
decomposition is non-empty, yet no emitted entry carries the skipped label
(hour 2), and bucket 2 of the schedule is empty. -/
theorem C8_spring_forward_skip_witness :
    decomposeRecord cdSpring 1 ≠ [] ∧
      (∀ p ∈ decomposeRecord cdSpring 1,
        p.1 ≠ skippedHour 1710054000 (-18000)) ∧
      (generateSchedule [cdSpring] 1 0).hourlyRequirements.getD
        (skippedHour 1710054000 (-18000)) [] = [] :=
  ⟨by with_unfolding_all decide,
    (C8_spring_forward_skip 1710054000 (-18000) cdSpring 1 rfl rfl rfl
      (by decide) (by decide) (by decide) (by decide) (by decide)).1,
    (C8_spring_forward_skip 1710054000 (-18000) cdSpring 1 rfl rfl rfl
      (by decide) (by decide) (by decide) (by decide) (by decide)).2⟩

end AgentScheduler
